import Mathlib

/-!
Shallow embedding of the `Jsonify` type-level transformation from
`source/jsonify.d.ts` of the type-fest repository fragment.

The transformation is a compile-time function on types.  Following the
specification's data model (§3), a type is embedded as a `Shape`: a symbolic
description of the set of values a variable may hold.  `Jsonify` and its
helper type operators (`NotJsonable`, `BaseKeyFilter`, `RequiredKeyFilter`,
`OptionalKeyFilter`) are translated from the source into executable functions
on `Shape`.  Imports of the source file that are not part of this fragment
(`JsonPrimitive`/`JsonValue` from basic.d.ts, `Merge` from merge.d.ts,
`EmptyObject`, `PositiveInfinity`/`NegativeInfinity`, `TypedArray`) are
modelled from the specification, as marked in their doc comments.
-/

namespace TypeFest

/-- A property key of a record shape: a concrete string key, a symbol key
(identified by a number), or the string index-signature key (`[k: string]`,
used e.g. by the projection of typed arrays to `Record of string to number`). -/
inductive JKey where
  | strK (s : String)
  | symK (n : Nat)
  | idx
deriving DecidableEq, Repr

/-- Shapes, the specification's symbolic descriptions of types (§3).
A record field is a triple of key, optional flag and value shape; an
optional field `k?: V` reads back as `V ∪ undefined`, as in the host type
system.  `empty` is the uninhabitable shape (`never`). -/
inductive Shape where
  | str
  | num
  | bool
  | nullS
  | strLit (s : String)
  | numLit (n : Int)
  | boolLit (b : Bool)
  | posInfinity
  | negInfinity
  | func
  | symbol
  | undef
  | bigint
  | boxedNumber
  | boxedString
  | boxedBoolean
  | mapLike
  | setLike
  | typedArray
  | arrayOf (e : Shape)
  | tuple (es : List Shape)
  | record (fs : List (JKey × Bool × Shape))
  | toJSONObj (j : Shape)
  | union (a b : Shape)
  | empty

/-- Whether a key is a symbol key (`Key extends symbol` in `BaseKeyFilter`). -/
def isSymKey : JKey → Bool
  | .symK _ => true
  | _ => false

/-- Whether a shape is the uninhabitable shape `never`. -/
def isEmptyShape : Shape → Bool
  | .empty => true
  | _ => false

/-- Union formation for the results of a distributed conditional type:
`never` members of a union vanish in the host type system. -/
def mkUnion (a b : Shape) : Shape :=
  if isEmptyShape a then b else if isEmptyShape b then a else .union a b

/-- The gate of `Jsonify`: `[Extract<T, NotJsonable | bigint>] extends [never]`
is false exactly when some union member of `T` is assignable to
`NotJsonable | bigint`, where `NotJsonable = ((...args) => any) | undefined | symbol`.
`Extract` distributes over the members of `T`, so the union is inspected
member by member, but the surrounding tuple test is non-distributive. -/
def hasNotJsonable : Shape → Bool
  | .union a b => hasNotJsonable a || hasNotJsonable b
  | .func => true
  | .symbol => true
  | .undef => true
  | .bigint => true
  | _ => false

/-- `T[I] extends NotJsonable`, the element test of the array/tuple case:
is the element shape assignable to `((...args) => any) | undefined | symbol`?
A union is assignable iff every member is; `never` is assignable to anything.
Note `bigint` is not part of `NotJsonable` (only the gate adds it). -/
def extendsNotJsonable : Shape → Bool
  | .func => true
  | .undef => true
  | .symbol => true
  | .empty => true
  | .union a b => extendsNotJsonable a && extendsNotJsonable b
  | _ => false

/-- `Type[Key] extends symbol`: is the shape assignable to `symbol`? -/
def assignableToSymbol : Shape → Bool
  | .symbol => true
  | .empty => true
  | .union a b => assignableToSymbol a && assignableToSymbol b
  | _ => false

/-- `[(...args: any[]) => any] extends [Type[Key]]`: is the general function
shape assignable to the given shape?  It is assignable to a union iff it is
assignable to one of the members.  It is not assignable to record shapes:
for a record with a required property this fails structurally, and for an
all-optional record the host's weak-type detection rejects it (this is what
distinguishes the `EmptyObject` marker used by the source from a bare `{}`). -/
def fnAssignableTo : Shape → Bool
  | .func => true
  | .union a b => fnAssignableTo a || fnAssignableTo b
  | _ => false

/-- `undefined extends Type[Key]`: is `undefined` assignable to the shape? -/
def undefinedExtends : Shape → Bool
  | .undef => true
  | .union a b => undefinedExtends a || undefinedExtends b
  | _ => false

/-- `Type[Key] extends undefined`: is the shape assignable to `undefined`? -/
def extendsUndefined : Shape → Bool
  | .undef => true
  | .empty => true
  | .union a b => extendsUndefined a && extendsUndefined b
  | _ => false

/-- `Exclude<T, undefined>`: distribute over the union members of `T` and
drop the members assignable to `undefined` (dropped members vanish, as
`never` does in a union). -/
def excludeUndefined : Shape → Shape
  | .union a b => mkUnion (excludeUndefined a) (excludeUndefined b)
  | .undef => .empty
  | s => s

/-- `Type[Key]`, the value shape read off a record field: an optional field
`k?: V` reads back as `V ∪ undefined`. -/
def propType (f : JKey × Bool × Shape) : Shape :=
  if f.2.1 then Shape.union f.2.2 Shape.undef else f.2.2

/-- `BaseKeyFilter<Type, Key>` of the source, as the predicate "the key is
kept": returns false (`never` in the source) if the key is a symbol key, or
the property shape is assignable to `symbol`, or the general function shape
is assignable to the property shape. -/
def BaseKeyFilter (f : JKey × Bool × Shape) : Bool :=
  !isSymKey f.1 && !assignableToSymbol (propType f) && !fnAssignableTo (propType f)

/-- `RequiredKeyFilter<Type, Key>`: keep the key as a required key iff
`undefined` is not assignable to `Type[Key]` and `BaseKeyFilter` keeps it. -/
def RequiredKeyFilter (f : JKey × Bool × Shape) : Bool :=
  !undefinedExtends (propType f) && BaseKeyFilter f

/-- `OptionalKeyFilter<Type, Key>`: keep the key as an optional key iff
`undefined` is assignable to `Type[Key]`, `Type[Key]` is not itself
assignable to `undefined`, and `BaseKeyFilter` keeps it. -/
def OptionalKeyFilter (f : JKey × Bool × Shape) : Bool :=
  undefinedExtends (propType f) && !extendsUndefined (propType f) && BaseKeyFilter f

/-- Modelled from the spec: `Merge` (from merge.d.ts, which is not part of
this fragment).  The merged record keeps all destination keys and all source
keys; on an overlapping key name the required (destination) shape wins
(spec §4.1.f). -/
def Merge (ds ss : List (JKey × Bool × Shape)) : List (JKey × Bool × Shape) :=
  ds ++ ss.filter (fun s => ds.all (fun d => d.1 != s.1))

/-- Modelled from the spec: `T extends JsonPrimitive` for the primitive and
literal shapes of the data model (`JsonPrimitive` comes from basic.d.ts,
which is not part of this fragment): string, number, boolean, null and
their literals.  The special infinity shapes are kept separate, as in the
taxonomy of spec §3, and are handled by the earlier infinity case of the
projection. -/
def isJsonPrimitive : Shape → Bool
  | .str => true
  | .num => true
  | .bool => true
  | .nullS => true
  | .strLit _ => true
  | .numLit _ => true
  | .boolLit _ => true
  | _ => false

mutual

/-- Modelled from the spec: assignability to the general JSON-value shape
(`JsonValue` from basic.d.ts, which is not part of this fragment) — the
shapes drawn from string, number, boolean, null, their literals, arrays,
tuples and records of JSON values (string keys, optional or required), and
unions of such shapes.  `never` is assignable to anything; the infinity
shapes are not representable by JSON numbers (spec §3). -/
def isJsonValue : Shape → Bool
  | .str => true
  | .num => true
  | .bool => true
  | .nullS => true
  | .strLit _ => true
  | .numLit _ => true
  | .boolLit _ => true
  | .empty => true
  | .arrayOf e => isJsonValue e
  | .tuple es => isJsonElems es
  | .record fs => isJsonFields fs
  | .union a b => isJsonValue a && isJsonValue b
  | _ => false

/-- All shapes of a list are assignable to the JSON-value shape. -/
def isJsonElems : List Shape → Bool
  | [] => true
  | e :: es => isJsonValue e && isJsonElems es

/-- All fields of a record have non-symbol keys and JSON-value shapes. -/
def isJsonFields : List (JKey × Bool × Shape) → Bool
  | [] => true
  | (k, _, v) :: fs => !isSymKey k && isJsonValue v && isJsonFields fs

end

theorem sizeOf_mkUnion_le (a b : Shape) :
    sizeOf (mkUnion a b) ≤ 1 + sizeOf a + sizeOf b := by
  unfold mkUnion
  split
  · omega
  · split
    · omega
    · simp only [Shape.union.sizeOf_spec]
      omega

theorem sizeOf_excludeUndefined_le : ∀ s : Shape, sizeOf (excludeUndefined s) ≤ sizeOf s
  | .union a b => by
    have ha := sizeOf_excludeUndefined_le a
    have hb := sizeOf_excludeUndefined_le b
    have h := sizeOf_mkUnion_le (excludeUndefined a) (excludeUndefined b)
    simp only [excludeUndefined, Shape.union.sizeOf_spec]
    omega
  | .undef => by simp [excludeUndefined, Shape.undef.sizeOf_spec, Shape.empty.sizeOf_spec]
  | .str | .num | .bool | .nullS | .strLit _ | .numLit _ | .boolLit _
  | .posInfinity | .negInfinity | .func | .symbol | .bigint
  | .boxedNumber | .boxedString | .boxedBoolean | .mapLike | .setLike
  | .typedArray | .arrayOf _ | .tuple _ | .record _ | .toJSONObj _ | .empty =>
    Nat.le_refl _

mutual

/-- `Jsonify<T>` from source/jsonify.d.ts, translated case by case.
The outer non-distributive gate rejects any shape with a union member
assignable to `NotJsonable | bigint`.  Past the gate, the conditional chain
distributes over union members (with `never` results vanishing from the
union), and proceeds: infinities to null; JSON primitives unchanged; objects
with a `toJSON` method to the returned shape (projected again when it is not
itself a JSON value); boxed primitives to their primitives; map-like and
set-like shapes to the empty record (`EmptyObject`, modelled from the spec
as the empty-record shape); typed arrays to the string-indexed record of
numbers; arrays and tuples element-wise; records through the key filters and
`Merge`.  Any other non-object shape is removed (`never`); those cases are
unreachable here because the gate already catches them. -/
def Jsonify (S : Shape) : Shape :=
  if hasNotJsonable S then .empty
  else
    match S with
    | .union a b => mkUnion (Jsonify a) (Jsonify b)
    | .posInfinity | .negInfinity => .nullS
    | .str => .str
    | .num => .num
    | .bool => .bool
    | .nullS => .nullS
    | .strLit s => .strLit s
    | .numLit n => .numLit n
    | .boolLit b => .boolLit b
    | .toJSONObj j => if isJsonValue j then j else Jsonify j
    | .boxedNumber => .num
    | .boxedString => .str
    | .boxedBoolean => .bool
    | .mapLike | .setLike => .record []
    | .typedArray => .record [(.idx, false, .num)]
    | .arrayOf e => .arrayOf (if extendsNotJsonable e then .nullS else Jsonify e)
    | .tuple es => .tuple (jsonifyElems es)
    | .record fs => .record (Merge (jsonifyRequired fs) (jsonifyOptional fs))
    | .empty => .empty
    | .func | .symbol | .undef | .bigint => .empty
termination_by sizeOf S
decreasing_by
  all_goals simp_wf
  all_goals omega

/-- The element-wise mapped type of the array/tuple case:
elements assignable to `NotJsonable` become the null shape, the others are
projected recursively. -/
def jsonifyElems : List Shape → List Shape
  | [] => []
  | e :: es => (if extendsNotJsonable e then .nullS else Jsonify e) :: jsonifyElems es
termination_by es => sizeOf es
decreasing_by
  all_goals simp_wf
  all_goals omega

/-- The required half of the record case: keys kept by `RequiredKeyFilter`,
mapped to `Jsonify<Type[Key]>`.  A key kept as required cannot be an optional
field (its `Type[Key]` would include `undefined`), so `Type[Key]` is the
field's value shape. -/
def jsonifyRequired : List (JKey × Bool × Shape) → List (JKey × Bool × Shape)
  | [] => []
  | (k, o, v) :: fs =>
    if RequiredKeyFilter (k, o, v) then (k, false, Jsonify v) :: jsonifyRequired fs
    else jsonifyRequired fs
termination_by fs => sizeOf fs
decreasing_by
  all_goals simp_wf
  all_goals omega

/-- The optional half of the record case: keys kept by `OptionalKeyFilter`,
mapped to `Jsonify<Exclude<Type[Key], undefined>>` and marked optional.
`Exclude` drops the `undefined` member an optional field contributes, so
excluding `undefined` from `Type[Key]` and from the field's value shape
coincide (see `excludeUndefined_propType`). -/
def jsonifyOptional : List (JKey × Bool × Shape) → List (JKey × Bool × Shape)
  | [] => []
  | (k, o, v) :: fs =>
    if OptionalKeyFilter (k, o, v) then
      (k, true, Jsonify (excludeUndefined v)) :: jsonifyOptional fs
    else jsonifyOptional fs
termination_by fs => sizeOf fs
decreasing_by
  all_goals simp_wf
  all_goals (have hle := sizeOf_excludeUndefined_le v; omega)

end

theorem isEmptyShape_iff (s : Shape) : isEmptyShape s = true ↔ s = .empty := by
  cases s <;> simp [isEmptyShape]

theorem mkUnion_empty_right (a : Shape) : mkUnion a .empty = a := by
  unfold mkUnion
  split
  · exact ((isEmptyShape_iff _).mp (by assumption)).symm
  · simp [isEmptyShape]

theorem excludeUndefined_propType (f : JKey × Bool × Shape) :
    excludeUndefined (propType f) = excludeUndefined f.2.2 := by
  obtain ⟨k, o, v⟩ := f
  cases o
  · rfl
  · show excludeUndefined (.union v .undef) = excludeUndefined v
    simp [excludeUndefined, mkUnion_empty_right]

/-- No two fields of the list share a key name (records of the host type
system have distinct keys, so a shape list with a duplicated key does not
denote a type). -/
def nodupKeysB : List (JKey × Bool × Shape) → Bool
  | [] => true
  | f :: fs => fs.all (fun g => f.1 != g.1) && nodupKeysB fs

/-- The required fields of the list all come before the optional fields.
Records of the host type system are unordered, so this just picks the
canonical representative produced by merging the required half with the
optional half. -/
def orderedB : List (JKey × Bool × Shape) → Bool
  | [] => true
  | f :: fs => if f.2.1 then fs.all (fun g => g.2.1) else orderedB fs

mutual

/-- Canonical JSON-value shapes: the shapes built only from string, number,
boolean, null, their literals, arrays, tuples, records (non-symbol keys, no
duplicated key names, required fields before optional ones) and unions of
such shapes, with no occurrence of the empty shape.  These are exactly the
shapes this development proves to be fixed points of `Jsonify`. -/
def cj : Shape → Bool
  | .str | .num | .bool | .nullS | .strLit _ | .numLit _ | .boolLit _ => true
  | .arrayOf e => cj e
  | .tuple es => cjElems es
  | .record fs => cjFields fs && nodupKeysB fs && orderedB fs
  | .union a b => cj a && cj b
  | _ => false

/-- All shapes of the list are canonical JSON-value shapes. -/
def cjElems : List Shape → Bool
  | [] => true
  | e :: es => cj e && cjElems es

/-- All fields have non-symbol keys and canonical JSON value shapes. -/
def cjFields : List (JKey × Bool × Shape) → Bool
  | [] => true
  | (k, _, v) :: fs => !isSymKey k && cj v && cjFields fs

end

/-- A canonical JSON-value shape is inert for every structural test of the
source: `undefined` is not assignable to it, it is not assignable to `symbol`
or `undefined`, the general function shape is not assignable to it, excluding
`undefined` leaves it unchanged, the `NotJsonable` gate does not fire on it,
and it is not the empty shape. -/
theorem cj_props : ∀ v : Shape, cj v = true →
    undefinedExtends v = false ∧ assignableToSymbol v = false ∧
    fnAssignableTo v = false ∧ extendsUndefined v = false ∧
    excludeUndefined v = v ∧ hasNotJsonable v = false ∧
    extendsNotJsonable v = false ∧ isEmptyShape v = false
  | .union a b, h => by
    have hab : cj a = true ∧ cj b = true := by simpa [cj] using h
    obtain ⟨a1, a2, a3, a4, a5, a6, a7, a8⟩ := cj_props a hab.1
    obtain ⟨b1, b2, b3, b4, b5, b6, b7, b8⟩ := cj_props b hab.2
    refine ⟨?_, ?_, ?_, ?_, ?_, ?_, ?_, ?_⟩ <;>
      first
      | rfl
      | simp [undefinedExtends, assignableToSymbol, fnAssignableTo, extendsUndefined,
          excludeUndefined, hasNotJsonable, extendsNotJsonable, mkUnion,
          a1, a2, a3, a4, a5, a6, a7, a8, b1, b2, b3, b4, b5, b6, b7, b8]
  | .str, _ | .num, _ | .bool, _ | .nullS, _ | .strLit _, _ | .numLit _, _
  | .boolLit _, _ | .arrayOf _, _ | .tuple _, _ | .record _, _ =>
    ⟨rfl, rfl, rfl, rfl, rfl, rfl, rfl, rfl⟩
  | .posInfinity, h | .negInfinity, h | .func, h | .symbol, h | .undef, h
  | .bigint, h | .boxedNumber, h | .boxedString, h | .boxedBoolean, h
  | .mapLike, h | .setLike, h | .typedArray, h | .toJSONObj _, h | .empty, h => by
    simp [cj] at h

theorem ordered_split :
    ∀ fs : List (JKey × Bool × Shape), orderedB fs = true →
      fs.filter (fun f => !f.2.1) ++ fs.filter (fun f => f.2.1) = fs
  | [], _ => rfl
  | f :: fs, h => by
    by_cases ho : f.2.1 = true
    · have hall : ∀ g ∈ fs, g.2.1 = true := by
        have : fs.all (fun g => g.2.1) = true := by simpa [orderedB, ho] using h
        simpa [List.all_eq_true] using this
      have h1 : (f :: fs).filter (fun f => !f.2.1) = [] := by
        rw [List.filter_eq_nil_iff]
        intro a ha
        rcases List.mem_cons.mp ha with rfl | ha
        · simp [ho]
        · simp [hall a ha]
      have h2 : (f :: fs).filter (fun f => f.2.1) = f :: fs := by
        rw [List.filter_eq_self]
        intro a ha
        rcases List.mem_cons.mp ha with rfl | ha
        · simpa using ho
        · simpa using hall a ha
      rw [h1, h2]
      rfl
    · have hrest : orderedB fs = true := by simpa [orderedB, ho] using h
      have ho' : f.2.1 = false := by simpa using ho
      simp only [List.filter_cons, ho', Bool.not_false, if_true, if_false, cond_true,
        cond_false]
      simpa [ho'] using congrArg (List.cons f) (ordered_split fs hrest)

theorem Merge_eq_append (ds ss : List (JKey × Bool × Shape))
    (h : ∀ s ∈ ss, ds.all (fun d => d.1 != s.1) = true) :
    Merge ds ss = ds ++ ss := by
  unfold Merge
  rw [List.filter_eq_self.mpr h]

theorem nodup_filters_disjoint :
    ∀ fs : List (JKey × Bool × Shape), nodupKeysB fs = true →
      ∀ s ∈ fs.filter (fun f => f.2.1),
        (fs.filter (fun f => !f.2.1)).all (fun d => d.1 != s.1) = true
  | [], _ => by intro s hs; simp at hs
  | f :: fs, h => by
    have hf : ∀ g ∈ fs, (f.1 != g.1) = true := by
      have : fs.all (fun g => f.1 != g.1) = true := by
        simpa [nodupKeysB] using (by simpa [nodupKeysB] using h : _ ∧ _).1
      simpa [List.all_eq_true] using this
    have hfs : nodupKeysB fs = true := by
      simpa [nodupKeysB] using (by simpa [nodupKeysB] using h : _ ∧ _).2
    intro s hs
    rw [List.all_eq_true]
    intro d hd
    have hd' := List.mem_filter.mp hd
    have hs' := List.mem_filter.mp hs
    rcases List.mem_cons.mp hd'.1 with rfl | hdfs
    · -- d is the head field: it is required, so s comes from the tail
      rcases List.mem_cons.mp hs'.1 with rfl | hsfs
      · exact absurd hs'.2 (by simpa using hd'.2)
      · exact hf s hsfs
    · rcases List.mem_cons.mp hs'.1 with rfl | hsfs
      · -- s is the head field: it is optional, d comes from the tail
        have := hf d hdfs
        simp only [bne_iff_ne] at this ⊢
        exact fun e => this e.symm
      · -- both from the tail: use the induction hypothesis
        have ih := nodup_filters_disjoint fs hfs s (List.mem_filter.mpr ⟨hsfs, hs'.2⟩)
        rw [List.all_eq_true] at ih
        exact ih d (List.mem_filter.mpr ⟨hdfs, hd'.2⟩)

mutual

/-- Every canonical JSON-value shape is a fixed point of `Jsonify`. -/
theorem cj_fixed : ∀ s : Shape, cj s = true → Jsonify s = s
  | .str, _ | .num, _ | .bool, _ | .nullS, _ | .strLit _, _ | .numLit _, _
  | .boolLit _, _ => by simp [Jsonify, hasNotJsonable]
  | .arrayOf e, h => by
    have hce : cj e = true := by simpa [cj] using h
    obtain ⟨-, -, -, -, -, -, p7, -⟩ := cj_props e hce
    simp [Jsonify, hasNotJsonable, p7, cj_fixed e hce]
  | .tuple es, h => by
    have hce : cjElems es = true := by simpa [cj] using h
    simp [Jsonify, hasNotJsonable, cjElems_fixed es hce]
  | .record fs, h => by
    have h3 : cjFields fs = true ∧ nodupKeysB fs = true ∧ orderedB fs = true := by
      simpa [cj, Bool.and_assoc] using h
    have hreq := cjFields_required fs h3.1
    have hmerge : Merge (jsonifyRequired fs) (jsonifyOptional fs) = fs := by
      rw [hreq, cjFields_optional fs h3.1,
        Merge_eq_append _ _ (nodup_filters_disjoint fs h3.2.1),
        ordered_split fs h3.2.2]
    simp [Jsonify, hasNotJsonable, hmerge]
  | .union a b, h => by
    have hab : cj a = true ∧ cj b = true := by simpa [cj] using h
    obtain ⟨-, -, -, -, -, a6, -, a8⟩ := cj_props a hab.1
    obtain ⟨-, -, -, -, -, b6, -, b8⟩ := cj_props b hab.2
    have hg : hasNotJsonable (.union a b) = false := by simp [hasNotJsonable, a6, b6]
    simp [Jsonify, hg, mkUnion, cj_fixed a hab.1, cj_fixed b hab.2, a8, b8]
  | .posInfinity, h | .negInfinity, h | .func, h | .symbol, h | .undef, h
  | .bigint, h | .boxedNumber, h | .boxedString, h | .boxedBoolean, h
  | .mapLike, h | .setLike, h | .typedArray, h | .toJSONObj _, h | .empty, h => by
    simp [cj] at h
termination_by s => sizeOf s
decreasing_by
  all_goals simp_wf
  all_goals omega

/-- Element lists of canonical JSON-value shapes are fixed element-wise. -/
theorem cjElems_fixed : ∀ es : List Shape, cjElems es = true → jsonifyElems es = es
  | [], _ => by simp [jsonifyElems]
  | e :: es, h => by
    have h2 : cj e = true ∧ cjElems es = true := by simpa [cjElems] using h
    obtain ⟨-, -, -, -, -, -, p7, -⟩ := cj_props e h2.1
    simp [jsonifyElems, p7, cj_fixed e h2.1, cjElems_fixed es h2.2]
termination_by es => sizeOf es
decreasing_by
  all_goals simp_wf
  all_goals omega

/-- On a list of canonical fields, the required half of the record case
keeps exactly the non-optional fields, unchanged. -/
theorem cjFields_required :
    ∀ fs : List (JKey × Bool × Shape), cjFields fs = true →
      jsonifyRequired fs = fs.filter (fun f => !f.2.1)
  | [], _ => by simp [jsonifyRequired]
  | (k, o, v) :: fs, h => by
    have h3 : isSymKey k = false ∧ cj v = true ∧ cjFields fs = true := by
      simpa [cjFields, Bool.and_assoc] using h
    obtain ⟨p1, p2, p3, -, -, -, -, -⟩ := cj_props v h3.2.1
    cases o
    · have hkeep : RequiredKeyFilter (k, false, v) = true := by
        simp [RequiredKeyFilter, BaseKeyFilter, propType, p1, p2, p3, h3.1]
      simp [jsonifyRequired, hkeep, cj_fixed v h3.2.1, cjFields_required fs h3.2.2,
        List.filter_cons]
    · have hdrop : RequiredKeyFilter (k, true, v) = false := by
        simp [RequiredKeyFilter, propType, undefinedExtends]
      simp [jsonifyRequired, hdrop, cjFields_required fs h3.2.2, List.filter_cons]
termination_by fs => sizeOf fs
decreasing_by
  all_goals simp_wf
  all_goals omega

/-- On a list of canonical fields, the optional half of the record case
keeps exactly the optional fields, unchanged. -/
theorem cjFields_optional :
    ∀ fs : List (JKey × Bool × Shape), cjFields fs = true →
      jsonifyOptional fs = fs.filter (fun f => f.2.1)
  | [], _ => by simp [jsonifyOptional]
  | (k, o, v) :: fs, h => by
    have h3 : isSymKey k = false ∧ cj v = true ∧ cjFields fs = true := by
      simpa [cjFields, Bool.and_assoc] using h
    obtain ⟨p1, p2, p3, p4, p5, -, -, -⟩ := cj_props v h3.2.1
    cases o
    · have hdrop : OptionalKeyFilter (k, false, v) = false := by
        simp [OptionalKeyFilter, propType, p1]
      simp [jsonifyOptional, hdrop, cjFields_optional fs h3.2.2, List.filter_cons]
    · have hkeep : OptionalKeyFilter (k, true, v) = true := by
        simp [OptionalKeyFilter, BaseKeyFilter, propType, undefinedExtends,
          extendsUndefined, assignableToSymbol, fnAssignableTo, p1, p2, p3, p4, h3.1]
      simp [jsonifyOptional, hkeep, p5, cj_fixed v h3.2.1, cjFields_optional fs h3.2.2,
        List.filter_cons]
termination_by fs => sizeOf fs
decreasing_by
  all_goals simp_wf
  all_goals omega

end

theorem isJsonFields_append (ds ss : List (JKey × Bool × Shape)) :
    isJsonFields (ds ++ ss) = (isJsonFields ds && isJsonFields ss) := by
  induction ds with
  | nil => simp [isJsonFields]
  | cons f fs ih =>
    obtain ⟨k, o, v⟩ := f
    simp [isJsonFields, ih, Bool.and_assoc]

theorem isJsonFields_filter (ss : List (JKey × Bool × Shape))
    (p : JKey × Bool × Shape → Bool) (h : isJsonFields ss = true) :
    isJsonFields (ss.filter p) = true := by
  induction ss with
  | nil => simp [isJsonFields]
  | cons f fs ih =>
    obtain ⟨k, o, v⟩ := f
    have h3 : isSymKey k = false ∧ isJsonValue v = true ∧ isJsonFields fs = true := by
      simpa [isJsonFields, Bool.and_assoc] using h
    rw [List.filter_cons]
    by_cases hp : p (k, o, v) = true
    · simp [hp, isJsonFields, h3.1, h3.2.1, ih h3.2.2]
    · simp only [Bool.not_eq_true] at hp
      simp [hp, ih h3.2.2]

theorem isJsonFields_Merge (ds ss : List (JKey × Bool × Shape))
    (hd : isJsonFields ds = true) (hs : isJsonFields ss = true) :
    isJsonFields (Merge ds ss) = true := by
  unfold Merge
  rw [isJsonFields_append, hd, isJsonFields_filter _ _ hs]
  rfl

theorem isJsonValue_mkUnion (a b : Shape)
    (ha : isJsonValue a = true) (hb : isJsonValue b = true) :
    isJsonValue (mkUnion a b) = true := by
  unfold mkUnion
  split
  · exact hb
  · split
    · exact ha
    · simp [isJsonValue, ha, hb]

mutual

/-- The output of `Jsonify` is always assignable to the general JSON-value
shape. -/
theorem jsonify_isJson : ∀ S : Shape, isJsonValue (Jsonify S) = true
  | .str | .num | .bool | .nullS | .strLit _ | .numLit _ | .boolLit _
  | .posInfinity | .negInfinity | .func | .symbol | .undef | .bigint
  | .boxedNumber | .boxedString | .boxedBoolean | .empty =>
    by simp [Jsonify, hasNotJsonable, isJsonValue]
  | .mapLike | .setLike => by simp [Jsonify, hasNotJsonable, isJsonValue, isJsonFields]
  | .typedArray =>
    by simp [Jsonify, hasNotJsonable, isJsonValue, isJsonFields, isSymKey]
  | .union a b => by
    by_cases hg : hasNotJsonable (.union a b) = true
    · simp [Jsonify, hg, isJsonValue]
    · rw [Bool.not_eq_true] at hg
      have ha := jsonify_isJson a
      have hb := jsonify_isJson b
      simp only [Jsonify, hg, Bool.false_eq_true, if_false]
      exact isJsonValue_mkUnion _ _ ha hb
  | .toJSONObj j => by
    by_cases hj : isJsonValue j = true
    · simp [Jsonify, hasNotJsonable, hj]
    · have := jsonify_isJson j
      simp only [Bool.not_eq_true] at hj
      simp [Jsonify, hasNotJsonable, hj, this]
  | .arrayOf e => by
    by_cases he : extendsNotJsonable e = true
    · simp [Jsonify, hasNotJsonable, he, isJsonValue]
    · have := jsonify_isJson e
      simp only [Bool.not_eq_true] at he
      simp [Jsonify, hasNotJsonable, he, isJsonValue, this]
  | .tuple es => by
    have := jsonifyElems_isJson es
    simp [Jsonify, hasNotJsonable, isJsonValue, this]
  | .record fs => by
    have hr := jsonifyRequired_isJson fs
    have ho := jsonifyOptional_isJson fs
    simp only [Jsonify, hasNotJsonable, Bool.false_eq_true, if_false]
    exact isJsonFields_Merge _ _ hr ho
termination_by S => sizeOf S
decreasing_by
  all_goals simp_wf
  all_goals omega

/-- The element-wise projection of a list yields JSON-value shapes. -/
theorem jsonifyElems_isJson : ∀ es : List Shape, isJsonElems (jsonifyElems es) = true
  | [] => by simp [jsonifyElems, isJsonElems]
  | e :: es => by
    have h1 := jsonify_isJson e
    have h2 := jsonifyElems_isJson es
    by_cases he : extendsNotJsonable e = true
    · simp [jsonifyElems, he, isJsonElems, isJsonValue, h2]
    · simp only [Bool.not_eq_true] at he
      simp [jsonifyElems, he, isJsonElems, h1, h2]
termination_by es => sizeOf es
decreasing_by
  all_goals simp_wf
  all_goals omega

/-- The required half of a projected record consists of fields with
non-symbol keys and JSON value shapes. -/
theorem jsonifyRequired_isJson :
    ∀ fs : List (JKey × Bool × Shape), isJsonFields (jsonifyRequired fs) = true
  | [] => by simp [jsonifyRequired, isJsonFields]
  | (k, o, v) :: fs => by
    have h2 := jsonifyRequired_isJson fs
    by_cases hf : RequiredKeyFilter (k, o, v) = true
    · have hk : isSymKey k = false := by
        simp only [RequiredKeyFilter, BaseKeyFilter, Bool.and_eq_true,
          Bool.not_eq_true'] at hf
        tauto
      have hv := jsonify_isJson v
      simp [jsonifyRequired, hf, isJsonFields, hk, hv, h2]
    · simp only [Bool.not_eq_true] at hf
      simp [jsonifyRequired, hf, h2]
termination_by fs => sizeOf fs
decreasing_by
  all_goals simp_wf
  all_goals omega

/-- The optional half of a projected record consists of fields with
non-symbol keys and JSON value shapes. -/
theorem jsonifyOptional_isJson :
    ∀ fs : List (JKey × Bool × Shape), isJsonFields (jsonifyOptional fs) = true
  | [] => by simp [jsonifyOptional, isJsonFields]
  | (k, o, v) :: fs => by
    have h2 := jsonifyOptional_isJson fs
    by_cases hf : OptionalKeyFilter (k, o, v) = true
    · have hk : isSymKey k = false := by
        simp only [OptionalKeyFilter, BaseKeyFilter, Bool.and_eq_true,
          Bool.not_eq_true'] at hf
        tauto
      have hv := jsonify_isJson (excludeUndefined v)
      simp [jsonifyOptional, hf, isJsonFields, hk, hv, h2]
    · simp only [Bool.not_eq_true] at hf
      simp [jsonifyOptional, hf, h2]
termination_by fs => sizeOf fs
decreasing_by
  all_goals simp_wf
  all_goals (have hle := sizeOf_excludeUndefined_le v; omega)

end

theorem jsonifyElems_eq_map (es : List Shape) :
    jsonifyElems es =
      es.map (fun e => if extendsNotJsonable e then Shape.nullS else Jsonify e) := by
  induction es with
  | nil => simp [jsonifyElems]
  | cons e es ih => simp [jsonifyElems, ih]

/-- A shape assignable to `undefined` either has `undefined` assignable to it
in turn (it has an `undefined` member) or is assignable to `symbol` (it is
built from `never` alone). -/
theorem extendsUndefined_cases :
    ∀ T : Shape, extendsUndefined T = true →
      (undefinedExtends T || assignableToSymbol T) = true
  | .undef, _ => rfl
  | .empty, _ => rfl
  | .union a b, h => by
    have hab : extendsUndefined a = true ∧ extendsUndefined b = true := by
      simpa [extendsUndefined] using h
    have ha := extendsUndefined_cases a hab.1
    have hb := extendsUndefined_cases b hab.2
    simp only [undefinedExtends, assignableToSymbol, Bool.or_eq_true,
      Bool.and_eq_true] at *
    rcases ha with ha | ha
    · left; left; exact ha
    · rcases hb with hb | hb
      · left; right; exact hb
      · right; exact ⟨ha, hb⟩
  | .str, h | .num, h | .bool, h | .nullS, h | .strLit _, h | .numLit _, h
  | .boolLit _, h | .posInfinity, h | .negInfinity, h | .func, h | .symbol, h
  | .bigint, h | .boxedNumber, h | .boxedString, h | .boxedBoolean, h
  | .mapLike, h | .setLike, h | .typedArray, h | .arrayOf _, h | .tuple _, h
  | .record _, h | .toJSONObj _, h => by simp [extendsUndefined] at h

/-- Key-name disjointness of two field lists. -/
def keyDisjointB (ds ss : List (JKey × Bool × Shape)) : Bool :=
  ds.all (fun d => ss.all (fun s => d.1 != s.1))

theorem jsonifyRequired_key_mem :
    ∀ fs : List (JKey × Bool × Shape), ∀ d ∈ jsonifyRequired fs,
      ∃ g ∈ fs, d.1 = g.1 ∧ RequiredKeyFilter g = true
  | [], d => by simp [jsonifyRequired]
  | (k, o, v) :: fs, d => by
    intro hd
    by_cases hf : RequiredKeyFilter (k, o, v) = true
    · rw [jsonifyRequired, if_pos hf] at hd
      rcases List.mem_cons.mp hd with rfl | hd
      · exact ⟨(k, o, v), List.mem_cons_self _ _, rfl, hf⟩
      · obtain ⟨g, hg, he, hgf⟩ := jsonifyRequired_key_mem fs d hd
        exact ⟨g, List.mem_cons_of_mem _ hg, he, hgf⟩
    · rw [jsonifyRequired, if_neg hf] at hd
      obtain ⟨g, hg, he, hgf⟩ := jsonifyRequired_key_mem fs d hd
      exact ⟨g, List.mem_cons_of_mem _ hg, he, hgf⟩

theorem jsonifyOptional_key_mem :
    ∀ fs : List (JKey × Bool × Shape), ∀ d ∈ jsonifyOptional fs,
      ∃ g ∈ fs, d.1 = g.1 ∧ OptionalKeyFilter g = true
  | [], d => by simp [jsonifyOptional]
  | (k, o, v) :: fs, d => by
    intro hd
    by_cases hf : OptionalKeyFilter (k, o, v) = true
    · rw [jsonifyOptional, if_pos hf] at hd
      rcases List.mem_cons.mp hd with rfl | hd
      · exact ⟨(k, o, v), List.mem_cons_self _ _, rfl, hf⟩
      · obtain ⟨g, hg, he, hgf⟩ := jsonifyOptional_key_mem fs d hd
        exact ⟨g, List.mem_cons_of_mem _ hg, he, hgf⟩
    · rw [jsonifyOptional, if_neg hf] at hd
      obtain ⟨g, hg, he, hgf⟩ := jsonifyOptional_key_mem fs d hd
      exact ⟨g, List.mem_cons_of_mem _ hg, he, hgf⟩

/-- The two key filters are mutually exclusive on any field. -/
theorem filters_exclusive (f : JKey × Bool × Shape) :
    ¬(RequiredKeyFilter f = true ∧ OptionalKeyFilter f = true) := by
  rintro ⟨hr, ho⟩
  simp only [RequiredKeyFilter, OptionalKeyFilter, Bool.and_eq_true,
    Bool.not_eq_true'] at hr ho
  simp [hr.1] at ho

/-- With no duplicated key names among the input fields, a key kept by the
required filter and a key kept by the optional filter can never coincide. -/
theorem nodup_keys_inj :
    ∀ fs : List (JKey × Bool × Shape), nodupKeysB fs = true →
      ∀ g₁ ∈ fs, ∀ g₂ ∈ fs, g₁.1 = g₂.1 → g₁ = g₂
  | [], _, g₁ => by simp
  | f :: fs, h, g₁ => by
    have hf : ∀ g ∈ fs, (f.1 != g.1) = true := by
      have : fs.all (fun g => f.1 != g.1) = true := by
        simpa [nodupKeysB] using (by simpa [nodupKeysB] using h : _ ∧ _).1
      simpa [List.all_eq_true] using this
    have hfs : nodupKeysB fs = true := by
      simpa [nodupKeysB] using (by simpa [nodupKeysB] using h : _ ∧ _).2
    intro hg₁ g₂ hg₂ he
    rcases List.mem_cons.mp hg₁ with h₁ | h₁
    · rcases List.mem_cons.mp hg₂ with h₂ | h₂
      · rw [h₁, h₂]
      · have hkey : f.1 = g₂.1 := by rw [← h₁]; exact he
        exact absurd hkey (by simpa using hf g₂ h₂)
    · rcases List.mem_cons.mp hg₂ with h₂ | h₂
      · have hkey : f.1 = g₁.1 := by rw [← h₂]; exact he.symm
        exact absurd hkey (by simpa using hf g₁ h₁)
      · exact nodup_keys_inj fs hfs g₁ h₁ g₂ h₂ he

theorem required_optional_disjoint (fs : List (JKey × Bool × Shape))
    (h : nodupKeysB fs = true) :
    keyDisjointB (jsonifyRequired fs) (jsonifyOptional fs) = true := by
  rw [keyDisjointB, List.all_eq_true]
  intro d hd
  rw [List.all_eq_true]
  intro s hs
  obtain ⟨g₁, hg₁, he₁, hrf⟩ := jsonifyRequired_key_mem fs d hd
  obtain ⟨g₂, hg₂, he₂, hof⟩ := jsonifyOptional_key_mem fs s hs
  rw [bne_iff_ne, he₁, he₂]
  intro he
  have := nodup_keys_inj fs h g₁ hg₁ g₂ hg₂ he
  subst this
  exact filters_exclusive g₁ ⟨hrf, hof⟩

theorem jsonifyRequired_append :
    ∀ ds es : List (JKey × Bool × Shape),
      jsonifyRequired (ds ++ es) = jsonifyRequired ds ++ jsonifyRequired es
  | [], es => by simp [jsonifyRequired]
  | (k, o, v) :: ds, es => by
    by_cases hf : RequiredKeyFilter (k, o, v) = true <;>
      simp [jsonifyRequired, hf, jsonifyRequired_append ds es]

theorem jsonifyOptional_append :
    ∀ ds es : List (JKey × Bool × Shape),
      jsonifyOptional (ds ++ es) = jsonifyOptional ds ++ jsonifyOptional es
  | [], es => by simp [jsonifyOptional]
  | (k, o, v) :: ds, es => by
    by_cases hf : OptionalKeyFilter (k, o, v) = true <;>
      simp [jsonifyOptional, hf, jsonifyOptional_append ds es]

/-- C1: for every shape `S`, the projection `Jsonify S` is itself a shape
drawn only from the JSON-value shapes (string, number, boolean, null, their
literals, arrays and tuples of projected shapes, records of projected shapes
with optionality preserved, and unions of these) — i.e. the output of the
projection is always assignable to the general JSON-value shape. -/
theorem jsonify_output_is_json_value : ∀ S : Shape, isJsonValue (Jsonify S) = true :=
  jsonify_isJson

/-- C2 (counterexample): the projection is not idempotent as stated.  For the
record shape with a single required bigint-valued key `a`, the projection
maps it to the record whose key `a` has the empty value shape, whose
projection in turn drops the key entirely (the empty
value shape is assignable to `symbol`, so `BaseKeyFilter` removes it),
yielding the empty record — a different shape. -/
theorem jsonify_not_idempotent_at_bigint_field :
    ¬(Jsonify (Jsonify (.record [(.strK "a", false, .bigint)])) =
      Jsonify (.record [(.strK "a", false, .bigint)])) := by
  have h1 : Jsonify (.record [(.strK "a", false, .bigint)]) =
      .record [(.strK "a", false, .empty)] := by
    simp [Jsonify, hasNotJsonable, jsonifyRequired, jsonifyOptional, Merge,
      RequiredKeyFilter, OptionalKeyFilter, BaseKeyFilter, propType,
      undefinedExtends, extendsUndefined, assignableToSymbol, fnAssignableTo, isSymKey]
  have h2 : Jsonify (.record [(.strK "a", false, .empty)]) = .record [] := by
    simp [Jsonify, hasNotJsonable, jsonifyRequired, jsonifyOptional, Merge,
      RequiredKeyFilter, OptionalKeyFilter, BaseKeyFilter, propType,
      undefinedExtends, extendsUndefined, assignableToSymbol, fnAssignableTo, isSymKey]
  rw [h1, h2]
  simp

/-- C2 (amended): the projection is idempotent on every shape whose
projection is the empty shape or a canonical JSON-value shape containing no
occurrence of the empty shape (projections embedding the empty shape inside
a container — e.g. of a bigint-valued record field — are the only
exceptions; record-field order and vanishing union members are quotiented
away by canonicity, since records and unions of the host type system are
unordered). -/
theorem jsonify_idempotent_on_clean_outputs :
    ∀ S : Shape, (Jsonify S = .empty ∨ cj (Jsonify S) = true) →
      Jsonify (Jsonify S) = Jsonify S := by
  intro S h
  rcases h with h | h
  · rw [h]
    simp [Jsonify, hasNotJsonable]
  · exact cj_fixed _ h

theorem jsonify_idempotent_witness :
    (Jsonify (.tuple [.str, .func, .num]) = .empty ∨
      cj (Jsonify (.tuple [.str, .func, .num])) = true) ∧
    Jsonify (Jsonify (.tuple [.str, .func, .num])) =
      Jsonify (.tuple [.str, .func, .num]) := by
  have he : Jsonify (.tuple [.str, .func, .num]) = .tuple [.str, .nullS, .num] := by
    simp [Jsonify, hasNotJsonable, jsonifyElems, extendsNotJsonable]
  have hc : cj (Jsonify (.tuple [.str, .func, .num])) = true := by
    rw [he]
    simp [cj, cjElems]
  exact ⟨Or.inr hc, jsonify_idempotent_on_clean_outputs _ (Or.inr hc)⟩

/-- C3: for every shape with a union member assignable to the function,
symbol, undefined or bigint shape (the membership test inspecting the union
as a whole, non-distributively), the projection is the empty shape; in
particular the projections of the bare function, symbol, undefined and
bigint shapes and of the mixed union of string and function are empty. -/
theorem jsonify_union_not_jsonable_empty :
    (∀ S : Shape, hasNotJsonable S = true → Jsonify S = .empty) ∧
    Jsonify .func = .empty ∧ Jsonify .symbol = .empty ∧
    Jsonify .undef = .empty ∧ Jsonify .bigint = .empty ∧
    Jsonify (.union .str .func) = .empty := by
  refine ⟨fun S h => by simp [Jsonify.eq_def, h], ?_, ?_, ?_, ?_, ?_⟩ <;>
    simp [Jsonify, hasNotJsonable]

theorem jsonify_union_not_jsonable_witness :
    hasNotJsonable (.union .str .func) = true ∧
    Jsonify (.union .str .func) = .empty :=
  ⟨rfl, jsonify_union_not_jsonable_empty.1 _ rfl⟩

/-- C4 (counterexample): a bigint tuple element does not project to the
null shape.  `NotJsonable` does not include bigint (only the outer gate
adds it), so the element test sends the bigint element through the
recursive projection, which the gate maps to the empty shape: the tuple of
one bigint projects to the tuple of one empty shape, not to the tuple of
null. -/
theorem jsonify_tuple_bigint_not_null :
    Jsonify (.tuple [.bigint]) = .tuple [.empty] ∧
    ¬(Jsonify (.tuple [.bigint]) = .tuple [.nullS]) := by
  have h : Jsonify (.tuple [.bigint]) = .tuple [.empty] := by
    simp [Jsonify, hasNotJsonable, jsonifyElems, extendsNotJsonable]
  refine ⟨h, ?_⟩
  rw [h]
  simp

/-- C4 (amended): for every array or tuple shape, the projection is
element-wise and preserves length: an element assignable to `NotJsonable`
(function, symbol or undefined — not bigint) becomes the null shape, and
any other element is projected recursively (so a bigint element becomes the
empty shape); e.g. the tuple of string, function and number projects to the
tuple of string, null and number. -/
theorem jsonify_tuple_elementwise_amended :
    (∀ e : Shape, Jsonify (.arrayOf e) =
      .arrayOf (if extendsNotJsonable e then .nullS else Jsonify e)) ∧
    (∀ es : List Shape, Jsonify (.tuple es) =
      .tuple (es.map (fun e => if extendsNotJsonable e then Shape.nullS else Jsonify e))) ∧
    Jsonify (.tuple [.str, .func, .num]) = .tuple [.str, .nullS, .num] ∧
    Jsonify (.tuple [.bigint]) = .tuple [.empty] := by
  refine ⟨fun e => ?_, fun es => ?_, ?_, ?_⟩
  · simp [Jsonify, hasNotJsonable]
  · simp [Jsonify, hasNotJsonable, jsonifyElems_eq_map]
  · simp [Jsonify, hasNotJsonable, jsonifyElems, extendsNotJsonable]
  · simp [Jsonify, hasNotJsonable, jsonifyElems, extendsNotJsonable]

/-- C5 (counterexample): key exclusion is not "exactly when the value shape
is a symbol, a symbol key, or exactly a function shape".  A key whose value
shape is the union of string and function is neither (it is not assignable
to symbol, the key is a string key, and the union is not the function shape
itself), yet the key is excluded entirely: the general function shape is
assignable to the union, so `BaseKeyFilter` drops it and the projected
record is empty. -/
theorem record_key_exclusion_not_exact_function :
    Jsonify (.record [(.strK "a", false, .union .str .func)]) = .record [] ∧
    assignableToSymbol (.union .str .func) = false ∧
    isSymKey (.strK "a") = false ∧
    ¬(Shape.union .str .func = .func) := by
  refine ⟨?_, rfl, rfl, by simp⟩
  simp [Jsonify, hasNotJsonable, jsonifyRequired, jsonifyOptional, Merge,
    RequiredKeyFilter, OptionalKeyFilter, BaseKeyFilter, propType,
    undefinedExtends, extendsUndefined, assignableToSymbol, fnAssignableTo, isSymKey]

/-- C5 (amended): for a plain record shape, a key is excluded entirely from
the projection exactly when its property shape is assignable to symbol, or
the key is a symbol key, or the general function shape is assignable to the
property shape (so also for unions containing a function), or the property
shape is assignable to undefined (an exactly-undefined value drops the key
too). -/
theorem record_key_exclusion_iff_amended :
    ∀ (k : JKey) (o : Bool) (v : Shape),
      Jsonify (.record [(k, o, v)]) = .record [] ↔
        (isSymKey k || assignableToSymbol (propType (k, o, v)) ||
          fnAssignableTo (propType (k, o, v)) ||
          extendsUndefined (propType (k, o, v))) = true := by
  intro k o v
  have hrec : Jsonify (.record [(k, o, v)]) =
      .record (Merge (jsonifyRequired [(k, o, v)]) (jsonifyOptional [(k, o, v)])) := by
    simp [Jsonify, hasNotJsonable]
  by_cases hr : RequiredKeyFilter (k, o, v) = true
  · -- the key is kept as required: both sides are false
    have h4 : undefinedExtends (propType (k, o, v)) = false ∧ isSymKey k = false ∧
        assignableToSymbol (propType (k, o, v)) = false ∧
        fnAssignableTo (propType (k, o, v)) = false := by
      simp only [RequiredKeyFilter, BaseKeyFilter, Bool.and_eq_true,
        Bool.not_eq_true'] at hr
      tauto
    have hext : extendsUndefined (propType (k, o, v)) = false := by
      by_contra hx
      rw [Bool.not_eq_false] at hx
      have := extendsUndefined_cases _ hx
      rw [h4.1, h4.2.2.1] at this
      simp at this
    rw [hrec]
    constructor
    · intro h
      rw [jsonifyRequired, if_pos hr] at h
      simp [Merge] at h
    · intro h
      rw [h4.2.1, h4.2.2.1, h4.2.2.2, hext] at h
      simp at h
  · by_cases ho : OptionalKeyFilter (k, o, v) = true
    · -- the key is kept as optional: both sides are false
      have h5 : undefinedExtends (propType (k, o, v)) = true ∧
          extendsUndefined (propType (k, o, v)) = false ∧ isSymKey k = false ∧
          assignableToSymbol (propType (k, o, v)) = false ∧
          fnAssignableTo (propType (k, o, v)) = false := by
        simp only [OptionalKeyFilter, BaseKeyFilter, Bool.and_eq_true,
          Bool.not_eq_true'] at ho
        tauto
      rw [hrec]
      constructor
      · intro h
        rw [jsonifyRequired, if_neg hr, jsonifyRequired,
          jsonifyOptional, if_pos ho] at h
        simp [Merge] at h
      · intro h
        rw [h5.2.2.1, h5.2.2.2.1, h5.2.2.2.2, h5.2.1] at h
        simp at h
    · -- the key is dropped by both filters: both sides are true
      have hlhs : Jsonify (.record [(k, o, v)]) = .record [] := by
        rw [hrec, jsonifyRequired, if_neg hr, jsonifyRequired,
          jsonifyOptional, if_neg ho, jsonifyOptional]
        simp [Merge]
      rw [hlhs]
      simp only [true_iff]
      by_cases hb : BaseKeyFilter (k, o, v) = true
      · -- base filter passes, so the property shape must include undefined
        -- (required filter fails) and be assignable to undefined (optional
        -- filter fails)
        have hu : undefinedExtends (propType (k, o, v)) = true := by
          by_contra hx
          rw [Bool.not_eq_true] at hx
          exact hr (by simp [RequiredKeyFilter, hx, hb])
        have hx : extendsUndefined (propType (k, o, v)) = true := by
          by_contra hx
          rw [Bool.not_eq_true] at hx
          exact ho (by simp [OptionalKeyFilter, hu, hx, hb])
        simp [hx]
      · -- base filter fails: one of its three tests fires
        rcases Bool.eq_false_or_eq_true (isSymKey k) with h1 | h1
        · simp [h1]
        · rcases Bool.eq_false_or_eq_true
            (assignableToSymbol (propType (k, o, v))) with h2 | h2
          · simp [h2]
          · rcases Bool.eq_false_or_eq_true
              (fnAssignableTo (propType (k, o, v))) with h3 | h3
            · simp [h3]
            · exact absurd (by simp [BaseKeyFilter, h1, h2, h3]) hb

/-- C6: for a plain record shape, a key kept by the base filter whose value
shape is not exactly undefined becomes an optional key exactly when its
value shape includes undefined — then its output value shape is the
projection of the value shape minus undefined — and stays a required key
with the projected value shape otherwise; e.g. the record of a required
string key `a` and a key `b` of shape undefined-or-number projects to the
record of required string `a` and optional number `b`. -/
theorem record_optional_required_split :
    (∀ (k : JKey) (v : Shape), BaseKeyFilter (k, false, v) = true →
      extendsUndefined v = false →
      Jsonify (.record [(k, false, v)]) =
        .record (if undefinedExtends v then [(k, true, Jsonify (excludeUndefined v))]
          else [(k, false, Jsonify v)])) ∧
    Jsonify (.record [(.strK "a", false, .str), (.strK "b", false, .union .undef .num)]) =
      .record [(.strK "a", false, .str), (.strK "b", true, .num)] := by
  constructor
  · intro k v hbase hx
    by_cases hu : undefinedExtends v = true
    · have hrf : RequiredKeyFilter (k, false, v) = false := by
        simp [RequiredKeyFilter, propType, hu]
      have hof : OptionalKeyFilter (k, false, v) = true := by
        have : propType (k, false, v) = v := by simp [propType]
        simp [OptionalKeyFilter, this, hu, hx, hbase]
      simp [Jsonify, hasNotJsonable, jsonifyRequired, jsonifyOptional, hrf, hof,
        Merge, hu]
    · rw [Bool.not_eq_true] at hu
      have hrf : RequiredKeyFilter (k, false, v) = true := by
        simp [RequiredKeyFilter, propType, hu, hbase]
      have hof : OptionalKeyFilter (k, false, v) = false := by
        simp [OptionalKeyFilter, propType, hu]
      simp [Jsonify, hasNotJsonable, jsonifyRequired, jsonifyOptional, hrf, hof,
        Merge, hu]
  · simp [Jsonify, hasNotJsonable, jsonifyRequired, jsonifyOptional, Merge,
      RequiredKeyFilter, OptionalKeyFilter, BaseKeyFilter, propType,
      undefinedExtends, extendsUndefined, assignableToSymbol, fnAssignableTo,
      isSymKey, excludeUndefined, mkUnion, isEmptyShape]

theorem record_optional_required_split_witness :
    BaseKeyFilter (.strK "b", false, .union .undef .num) = true ∧
    extendsUndefined (.union .undef .num) = false ∧
    Jsonify (.record [(.strK "b", false, .union .undef .num)]) =
      .record [(.strK "b", true, .num)] := by
  refine ⟨by decide, by decide, ?_⟩
  have h := record_optional_required_split.1 (.strK "b") (.union .undef .num)
    (by decide) (by decide)
  simpa [undefinedExtends, excludeUndefined, mkUnion, isEmptyShape, Jsonify,
    hasNotJsonable] using h

/-- C7: for an object shape exposing a conversion-to-JSON operation
returning shape `J`, the projection is `J` itself when `J` is statically
assignable to the general JSON-value shape, and the recursive projection of
`J` otherwise; e.g. a shape whose conversion returns a Date-like shape that
in turn converts to string projects to string. -/
theorem jsonify_tojson_case :
    (∀ j : Shape, Jsonify (.toJSONObj j) =
      if isJsonValue j = true then j else Jsonify j) ∧
    Jsonify (.toJSONObj .str) = .str ∧
    Jsonify (.toJSONObj (.toJSONObj .str)) = .str := by
  refine ⟨fun j => ?_, ?_, ?_⟩
  · simp [Jsonify, hasNotJsonable]
  · simp [Jsonify, hasNotJsonable, isJsonValue]
  · simp [Jsonify, hasNotJsonable, isJsonValue]

/-- C8: the projection maps the positive-infinity and negative-infinity
shapes to the null shape, and maps every primitive or literal shape
(string, number, boolean, null and their literals) to itself unchanged. -/
theorem jsonify_infinity_and_primitives :
    Jsonify .posInfinity = .nullS ∧ Jsonify .negInfinity = .nullS ∧
    (∀ s : Shape, isJsonPrimitive s = true → Jsonify s = s) := by
  refine ⟨?_, ?_, fun s h => ?_⟩
  · simp [Jsonify, hasNotJsonable]
  · simp [Jsonify, hasNotJsonable]
  · cases s <;> simp_all [isJsonPrimitive, Jsonify, hasNotJsonable]

theorem jsonify_infinity_and_primitives_witness :
    isJsonPrimitive (.strLit "p") = true ∧ Jsonify (.strLit "p") = .strLit "p" :=
  ⟨rfl, jsonify_infinity_and_primitives.2.2 _ rfl⟩

/-- C9: for a plain record shape, any key whose property shape admits the
general function shape (in particular a union containing a function shape,
such as string-or-function) is excluded entirely from the projection:
removing the field does not change the projected record at all. -/
theorem record_key_union_function_excluded :
    ∀ (ds : List (JKey × Bool × Shape)) (f : JKey × Bool × Shape)
      (es : List (JKey × Bool × Shape)),
      fnAssignableTo (propType f) = true →
      Jsonify (.record (ds ++ f :: es)) = Jsonify (.record (ds ++ es)) := by
  intro ds f es h
  have hbase : BaseKeyFilter f = false := by
    simp [BaseKeyFilter, h]
  have hrf : RequiredKeyFilter f = false := by
    simp [RequiredKeyFilter, hbase]
  have hof : OptionalKeyFilter f = false := by
    simp [OptionalKeyFilter, hbase]
  obtain ⟨k, o, v⟩ := f
  simp [Jsonify, hasNotJsonable, jsonifyRequired_append, jsonifyOptional_append,
    jsonifyRequired, jsonifyOptional, hrf, hof]

theorem record_key_union_function_excluded_witness :
    fnAssignableTo (propType (.strK "a", false, .union .str .func)) = true ∧
    Jsonify (.record [(.strK "a", false, .union .str .func)]) =
      Jsonify (.record []) :=
  ⟨by decide, record_key_union_function_excluded [] _ [] (by decide)⟩

/-- C10: the required and optional key filters classify every field as at
most one of required-output and optional-output, and on a record with no
duplicated key names the required and optional halves of the projection
have disjoint key sets, so their merge is unambiguous. -/
theorem record_filters_mutually_exclusive :
    (∀ f : JKey × Bool × Shape,
      ¬(RequiredKeyFilter f = true ∧ OptionalKeyFilter f = true)) ∧
    (∀ fs : List (JKey × Bool × Shape), nodupKeysB fs = true →
      keyDisjointB (jsonifyRequired fs) (jsonifyOptional fs) = true) :=
  ⟨filters_exclusive, required_optional_disjoint⟩

theorem record_filters_mutually_exclusive_witness :
    nodupKeysB [(.strK "a", false, .str), (.strK "b", false, .union .undef .num)] = true ∧
    keyDisjointB
      (jsonifyRequired [(.strK "a", false, .str), (.strK "b", false, .union .undef .num)])
      (jsonifyOptional [(.strK "a", false, .str), (.strK "b", false, .union .undef .num)]) = true :=
  ⟨by decide, record_filters_mutually_exclusive.2 _ (by decide)⟩

end TypeFest
